import Mathlib

/-!
Shallow embedding of the chess-analytics backend core:
`src/backend/src/services/analyzer.ts` (move classification),
`src/backend/src/routes/analysis.ts` (centipawn-loss pipeline),
`src/backend/src/services/stockfish.ts` (engine pool, UCI output parsing,
game analysis driver).

JavaScript strings are modelled as `List Char`; JavaScript numbers that hold
centipawn values are modelled as `Int`, counts and indices as `Nat`.
-/

/-- The classification labels produced by `classifyMove` in `analyzer.ts`. -/
inductive Classification
  | blunder
  | mistake
  | inaccuracy
  | brilliant
  | great
  | best
  | excellent
  | good
deriving DecidableEq, Repr

/-- `const BLUNDER_THRESHOLD = 200` in `analyzer.ts`. -/
def BLUNDER_THRESHOLD : Int := 200

/-- `const MISTAKE_THRESHOLD = 100` in `analyzer.ts`. -/
def MISTAKE_THRESHOLD : Int := 100

/-- `const INACCURACY_THRESHOLD = 50` in `analyzer.ts`. -/
def INACCURACY_THRESHOLD : Int := 50

/-- `classifyMove` from `analyzer.ts` lines 55-75. -/
def classifyMove (cpLoss : Int) (isBestMove : Bool) (evalBefore evalAfter : Int)
    (isWhite : Bool) : Classification :=
  if cpLoss ≥ BLUNDER_THRESHOLD then .blunder
  else if cpLoss ≥ MISTAKE_THRESHOLD then .mistake
  else if cpLoss ≥ INACCURACY_THRESHOLD then .inaccuracy
  else if isBestMove then
    let improvement := if isWhite then evalAfter - evalBefore else evalBefore - evalAfter
    if improvement > 80 ∧ |evalBefore| < 200 then .brilliant
    else if improvement > 40 then .great
    else .best
  else if cpLoss < 15 then .excellent
  else .good

/-- The classification priority table exactly as the specification states it
(spec section 4.6), with `improvement` as the spec defines it.  Written from
the spec's words, to be compared with `classifyMove` from the source. -/
def specClassifyMove (cpLoss : Int) (isBestMove : Bool) (evalBefore evalAfter : Int)
    (isWhite : Bool) : Classification :=
  let improvement := if isWhite then evalAfter - evalBefore else evalBefore - evalAfter
  if 200 ≤ cpLoss then .blunder
  else if 100 ≤ cpLoss ∧ cpLoss < 200 then .mistake
  else if 50 ≤ cpLoss ∧ cpLoss < 100 then .inaccuracy
  else if cpLoss < 50 ∧ isBestMove ∧ improvement > 80 ∧ |evalBefore| < 200 then .brilliant
  else if cpLoss < 50 ∧ isBestMove ∧ improvement > 40 then .great
  else if cpLoss < 50 ∧ isBestMove then .best
  else if cpLoss < 50 ∧ ¬isBestMove ∧ cpLoss < 15 then .excellent
  else .good

/-- The score kind of a UCI evaluation: `'cp' | 'mate'` in `types.ts`. -/
inductive ScoreType
  | cp
  | mate
deriving DecidableEq, Repr

/-- `StockfishEval` as produced by `stockfish.ts`:
`{type, value, bestMove, pv}`. -/
structure StockfishEval where
  type : ScoreType
  value : Int
  bestMove : List Char
  pv : List (List Char)
deriving DecidableEq, Repr

/-- One element of the array returned by `analyzeGame` in `stockfish.ts`
(lines 358-376): `{ply, moveNumber, fen, movePlayed, movePlayedUci,
evaluation, isUserMove}`. -/
structure AnalysisResultItem where
  ply : Nat
  moveNumber : Nat
  fen : List Char
  movePlayed : List Char
  movePlayedUci : List Char
  evaluation : StockfishEval
  isUserMove : Bool
deriving DecidableEq, Repr

/-- A `MoveAnalysis` record as built by the analysis route
(`analysis.ts` lines 77-89). -/
structure MoveAnalysis where
  game_id : List Char
  move_number : Nat
  ply : Nat
  fen : List Char
  move_played : List Char
  best_move : List Char
  eval_before : Int
  eval_after : Int
  cp_loss : Int
  classification : Classification
  is_user_move : Bool
deriving DecidableEq, Repr

/-- The mate-to-centipawn normalization applied in `analysis.ts` lines 53-58:
`e.type === 'mate' ? e.value * 10000 : e.value`. -/
def normalizeEval (e : StockfishEval) : Int :=
  match e.type with
  | .mate => e.value * 10000
  | .cp => e.value

/-- `c.toLower` for every character, modelling JavaScript `toLowerCase()`
on the ASCII move strings involved. -/
def jsToLower (s : List Char) : List Char := s.map Char.toLower

/-- JavaScript `trim()`: strip leading and trailing whitespace. -/
def jsTrim (s : List Char) : List Char :=
  ((s.dropWhile fun c => c = ' ' ∨ c = '\t' ∨ c = '\n' ∨ c = '\r').reverse.dropWhile
    fun c => c = ' ' ∨ c = '\t' ∨ c = '\n' ∨ c = '\r').reverse

/-- The body of the per-move loop of the analysis route
(`analysis.ts` lines 48-89): from the current item and the (optional) next
item, compute the normalized evaluations, the clamped centipawn loss, the
best-move equality test, the classification, and assemble the record. -/
def buildMoveAnalysis (gameId : List Char) (current : AnalysisResultItem)
    (next : Option AnalysisResultItem) : MoveAnalysis :=
  let evalBefore := normalizeEval current.evaluation
  let evalAfter :=
    match next with
    | some n => normalizeEval n.evaluation
    | none => evalBefore
  let isWhiteMove := current.ply % 2 == 1
  let cpLoss0 := if isWhiteMove then evalBefore - evalAfter else evalAfter - evalBefore
  let cpLoss := max 0 cpLoss0
  let isBestMove :=
    jsTrim (jsToLower current.movePlayedUci) == jsTrim (jsToLower current.evaluation.bestMove)
  { game_id := gameId
    move_number := current.moveNumber
    ply := current.ply
    fen := current.fen
    move_played := current.movePlayed
    best_move := current.evaluation.bestMove
    eval_before := evalBefore
    eval_after := evalAfter
    cp_loss := cpLoss
    classification := classifyMove cpLoss isBestMove evalBefore evalAfter isWhiteMove
    is_user_move := current.isUserMove }

/-- The `for (let i = 0; ...)` loop of `analysis.ts` lines 48-106: each item
is paired with its successor (`analysisResults[i + 1]`), the last with
`undefined`. -/
def mkMoveRecords (gameId : List Char) : List AnalysisResultItem → List MoveAnalysis
  | [] => []
  | [c] => [buildMoveAnalysis gameId c none]
  | c :: n :: rest => buildMoveAnalysis gameId c (some n) :: mkMoveRecords gameId (n :: rest)

/-- `s.take pat.length = pat`, modelling JavaScript `String.startsWith`. -/
def beginsWith (pat s : List Char) : Bool := s.take pat.length == pat

/-- The numeric value of a digit string, as `parseInt` reads a `\d+` capture. -/
def digitsToNat (ds : List Char) : Nat :=
  ds.foldl (fun a c => a * 10 + (c.toNat - 48)) 0

/-- First match of the regex `pat(\d+)` (pattern text followed by at least one
digit), returning the parsed capture: the regex engine scans left to right and
captures the maximal digit run.  Models `line.match(/depth (\d+)/)`. -/
def findNumAfterPat (pat : List Char) : List Char → Option Nat
  | [] => none
  | c :: rest =>
    if (c :: rest).take pat.length == pat then
      let ds := ((c :: rest).drop pat.length).takeWhile Char.isDigit
      if ds.isEmpty then findNumAfterPat pat rest else some (digitsToNat ds)
    else findNumAfterPat pat rest

/-- `const currentDepth = depthMatch ? parseInt(depthMatch[1]) : 0` with
`depthMatch = line.match(/depth (\d+)/)` (`stockfish.ts` lines 239-240). -/
def currentDepthOf (line : List Char) : Nat :=
  (findNumAfterPat "depth ".toList line).getD 0

/-- A `-?\d+` capture parsed with `parseInt`, as in the score regex. -/
def parseSignedInt : List Char → Option Int
  | '-' :: rest =>
    let ds := rest.takeWhile Char.isDigit
    if ds.isEmpty then none else some (-(digitsToNat ds : Int))
  | s =>
    let ds := s.takeWhile Char.isDigit
    if ds.isEmpty then none else some ((digitsToNat ds : Int))

/-- First match of `score (cp|mate) (-?\d+)`, returning kind and signed value.
Models `line.match(/score (cp|mate) (-?\d+)/)` (`stockfish.ts` line 244). -/
def matchScoreTok : List Char → Option (ScoreType × Int)
  | [] => none
  | c :: rest =>
    if (c :: rest).take 9 == "score cp ".toList then
      match parseSignedInt ((c :: rest).drop 9) with
      | some v => some (ScoreType.cp, v)
      | none => matchScoreTok rest
    else if (c :: rest).take 11 == "score mate ".toList then
      match parseSignedInt ((c :: rest).drop 11) with
      | some v => some (ScoreType.mate, v)
      | none => matchScoreTok rest
    else matchScoreTok rest

/-- First match of `pv (.+)`: the text after the first occurrence of `pv `
that is followed by at least one character, captured to the end of the line.
Models `line.match(/pv (.+)/)` (`stockfish.ts` line 245). -/
def matchPv : List Char → Option (List Char)
  | [] => none
  | c :: rest =>
    if (c :: rest).take 3 == "pv ".toList then
      let after := (c :: rest).drop 3
      if after.isEmpty then matchPv rest else some after
    else matchPv rest

/-- JavaScript `s.split(sep)` for a one-character separator. -/
def splitChar (sep : Char) : List Char → List (List Char)
  | [] => [[]]
  | c :: rest =>
    let r := splitChar sep rest
    if c = sep then [] :: r
    else
      match r with
      | h :: t => (c :: h) :: t
      | [] => [[c]]

/-- `fen.split(' ')[1] === 'b'` (`stockfish.ts` lines 251 and 276). -/
def isBlackTurn (fen : List Char) : Bool :=
  (splitChar ' ' fen).getD 1 [] == "b".toList

/-- The per-request mutable state of `runEvaluation` (`stockfish.ts`
lines 223-225): the running best `evaluation` and, once a `bestmove` line has
been seen, the value the request's promise was resolved with. -/
structure ReqState where
  evaluation : Option StockfishEval
  resolved : Option StockfishEval
deriving DecidableEq, Repr

/-- The fresh state at dispatch time: `let evaluation = null`, unresolved. -/
def initReqState : ReqState := { evaluation := none, resolved := none }

/-- The evaluation built from a qualifying `info depth` score line
(`stockfish.ts` lines 247-261): the score normalized to White's perspective
(negated when the FEN's side to move is Black), and the best move / principal
variation read from the `pv` capture when present. -/
def mkInfoEval (fen : List Char) (kv : ScoreType × Int) (line : List Char) : StockfishEval :=
  let value := if isBlackTurn fen then -kv.2 else kv.2
  match matchPv line with
  | some cap => ⟨kv.1, value, jsTrim ((splitChar ' ' cap).getD 0 []), splitChar ' ' cap⟩
  | none => ⟨kv.1, value, [], []⟩

/-- The `if (line.startsWith('info depth'))` branch of the line loop
(`stockfish.ts` lines 238-264): a line reporting depth at least
`targetDepth - 2` and carrying a score token overwrites the running best
evaluation; any other line leaves the state unchanged. -/
def infoUpdate (fen : List Char) (depth : Nat) (st : ReqState) (line : List Char) :
    ReqState :=
  if beginsWith "info depth".toList line then
    if (currentDepthOf line : Int) ≥ (depth : Int) - 2 then
      match matchScoreTok line with
      | some kv => { st with evaluation := some (mkInfoEval fen kv line) }
      | none => st
    else st
  else st

/-- The `if (line.startsWith('bestmove'))` branch of the line loop
(`stockfish.ts` lines 267-284): attach the announced best move to the running
best evaluation and resolve with it, or resolve with the neutral cp-0
fallback when no score line was ever recorded.  A promise resolves at most
once, so the first resolution value is kept. -/
def bmUpdate (st : ReqState) (line : List Char) : ReqState :=
  if beginsWith "bestmove".toList line then
    let bm := jsTrim ((splitChar ' ' line).getD 1 [])
    match st.evaluation, st.resolved with
    | some ev, none =>
      ⟨some { ev with bestMove := bm }, some { ev with bestMove := bm }⟩
    | some ev, some r => ⟨some { ev with bestMove := bm }, some r⟩
    | none, none => ⟨st.evaluation, some ⟨.cp, 0, bm, [bm]⟩⟩
    | none, some _ => st
  else st

/-- The body of `for (const line of lines)` in `runEvaluation`
(`stockfish.ts` lines 236-285): the `info depth` branch followed by the
`bestmove` branch. -/
def processLine (fen : List Char) (depth : Nat) (st : ReqState) (line : List Char) :
    ReqState :=
  bmUpdate (infoUpdate fen depth st line) line

/-- Whether an output segment qualifies to overwrite the running best
evaluation: it starts with `info depth`, reports depth at least
`targetDepth - 2`, and carries a score token. -/
def qualifiesScore (depth : Nat) (line : List Char) : Bool :=
  beginsWith "info depth".toList line &&
    decide ((currentDepthOf line : Int) ≥ (depth : Int) - 2) &&
    (matchScoreTok line).isSome

/-- The `onData` accumulation of `runEvaluation` (`stockfish.ts`
lines 232-300): each stdout chunk is appended to `output`, the whole buffer is
split on newlines (the trailing piece may be an unterminated fragment), and
every piece is run through the line handler.  Once the request has resolved,
`cleanup` has removed the data listener, so later chunks are not processed. -/
def runRequest (fen : List Char) (depth : Nat) : List (List Char) → List Char → ReqState →
    ReqState
  | [], _, st => st
  | chunk :: rest, buf, st =>
    if st.resolved.isSome then st
    else
      let output := buf ++ chunk
      let st' := (splitChar '\n' output).foldl (processLine fen depth) st
      runRequest fen depth rest output st'

/-- One dispatched evaluation request observing the given stdout chunks. -/
def evalRequest (fen : List Char) (depth : Nat) (chunks : List (List Char)) : ReqState :=
  runRequest fen depth chunks [] initReqState

/-- Engine output consisting of the given newline-terminated lines. -/
def joinln (ls : List (List Char)) : List Char :=
  (ls.map fun l => l ++ ['\n']).flatten

/-- An evaluation request as queued by `evaluate` (`stockfish.ts`
lines 205-212); the completion handles are not part of the data model. -/
structure Req where
  fen : List Char
  depth : Nat
deriving DecidableEq, Repr

/-- A `StockfishInstance` as far as dispatch is concerned:
`{busy, queue}` (`stockfish.ts` lines 12-21). -/
structure EngineInstance where
  busy : Bool
  queue : List Req
deriving DecidableEq, Repr

/-- What `evaluate` did with a request. -/
inductive DispatchResult
  | dispatched (idx : Nat)
  | queued (idx : Nat)
deriving DecidableEq, Repr

/-- Index of the first non-busy instance:
`this.instances.find(i => !i.busy)` (`stockfish.ts` line 198). -/
def firstAvail : List EngineInstance → Option Nat
  | [] => none
  | inst :: rest => if inst.busy then (firstAvail rest).map (· + 1) else some 0

/-- The dispatch decision of `evaluate` (`stockfish.ts` lines 192-213): pick
the first non-busy instance, else fall back to instance 0; if the picked
instance is busy, push onto its queue, else run immediately
(`runEvaluation` sets `busy = true` as its first action). -/
def evaluateStep (pool : List EngineInstance) (r : Req) :
    List EngineInstance × DispatchResult :=
  let idx := (firstAvail pool).getD 0
  match pool.get? idx with
  | none => (pool, DispatchResult.queued idx)
  | some inst =>
    if inst.busy then
      (pool.set idx { inst with queue := inst.queue ++ [r] }, DispatchResult.queued idx)
    else
      (pool.set idx { inst with busy := true }, DispatchResult.dispatched idx)

/-- The dispatch-relevant state of one `EngineInstance` over its lifetime,
with ghost fields recording history: `running` is the list of requests
dispatched to the engine and not yet completed, `completed` the completion
order, `submitted` the submission order.  Requests are identified by ids. -/
structure InstState where
  busy : Bool
  running : List Nat
  queue : List Nat
  completed : List Nat
  submitted : List Nat
deriving DecidableEq, Repr

/-- An instance as created: not busy, empty queue. -/
def initInst : InstState := ⟨false, [], [], [], []⟩

/-- The effect of `evaluate` routing request `r` to this instance
(`stockfish.ts` lines 205-212): queue it if busy, else `runEvaluation`
(which marks the instance busy and puts the request in flight). -/
def submitReq (r : Nat) (s : InstState) : InstState :=
  if s.busy then
    { s with queue := s.queue ++ [r], submitted := s.submitted ++ [r] }
  else
    { s with busy := true, running := s.running ++ [r], submitted := s.submitted ++ [r] }

/-- The effect of `cleanup` when request `r` completes (resolution or
timeout, `stockfish.ts` lines 288-298): clear the busy flag, then shift the
queue and, if a request was waiting, immediately dispatch it. -/
def completeReq (r : Nat) (s : InstState) : InstState :=
  let s1 : InstState :=
    { s with
      busy := false
      running := s.running.erase r
      completed := s.completed ++ [r] }
  match s1.queue with
  | [] => s1
  | q :: rest => { s1 with busy := true, running := s1.running ++ [q], queue := rest }

/-- Events an instance participates in: a request is submitted to it, or an
in-flight request completes. -/
inductive IStep : InstState → InstState → Prop
  | submit (r : Nat) (s : InstState) : IStep s (submitReq r s)
  | complete (r : Nat) (s : InstState) (h : r ∈ s.running) : IStep s (completeReq r s)

/-- States reachable from a freshly created instance. -/
inductive ReachableInst : InstState → Prop
  | init : ReachableInst initInst
  | step {s t : InstState} : ReachableInst s → IStep s t → ReachableInst t

/-- The dispatch invariant of one engine instance: at most one request in
flight, the busy flag tracks exactly whether something is in flight, a free
instance has an empty queue, and completion order, in-flight requests and
queue content together replay the submission order. -/
def InstInv (s : InstState) : Prop :=
  s.running.length ≤ 1 ∧ (s.busy = true ↔ s.running ≠ []) ∧
    (s.busy = false → s.queue = []) ∧
    s.completed ++ s.running ++ s.queue = s.submitted

/-- One verbose-history move as returned by `chess.history({verbose: true})`
of the external chess.js library. -/
structure VerboseMove where
  san : List Char
  fromSq : List Char
  toSq : List Char
  promotion : List Char
deriving DecidableEq, Repr

/-- What the external chess.js library supplies to `analyzeGame` after
`loadPgn` succeeds: the verbose move list, and the FEN of the position before
each ply as produced by the replay loop (`chess.reset()` + `chess.fen()` +
`chess.move(...)`). -/
structure ParsedGame where
  moves : List VerboseMove
  fens : List (List Char)
deriving DecidableEq, Repr

/-- `analyzeGame` from `stockfish.ts` lines 328-383.  The external chess.js
parser is a parameter (`loadPgn`), throwing modelled as `Except.error`; the
pool is a parameter (`evalPos`).  The second component of the result is the
ordered list of FENs for which evaluation requests were issued.
`userColor = true` stands for `'white'`. -/
def analyzeGameModel (loadPgn : List Char → Except (List Char) ParsedGame)
    (evalPos : List Char → Nat → StockfishEval) (pgn : List Char) (userColor : Bool)
    (depth : Nat) : Except (List Char) (List AnalysisResultItem) × List (List Char) :=
  match loadPgn pgn with
  | .error e => (.error e, [])
  | .ok g =>
    ( .ok (g.moves.enum.map fun p =>
        let i := p.1
        let mv := p.2
        let fen := g.fens.getD i []
        let isWhiteMove := i % 2 == 0
        let isUserMove := (userColor && isWhiteMove) || (!userColor && !isWhiteMove)
        { ply := i + 1
          moveNumber := i / 2 + 1
          fen := fen
          movePlayed := mv.san
          movePlayedUci := mv.fromSq ++ mv.toSq ++ mv.promotion
          evaluation := evalPos fen depth
          isUserMove := isUserMove }),
      g.moves.enum.map fun p => g.fens.getD p.1 [] )

/-! ## Theorems -/

theorem classifyMove_zero_same (b : Bool) (x : Int) (w : Bool) :
    classifyMove 0 b x x w = if b then Classification.best else Classification.excellent := by
  cases b <;> cases w <;>
    norm_num [classifyMove, BLUNDER_THRESHOLD, MISTAKE_THRESHOLD, INACCURACY_THRESHOLD]

/-- Claim C1: for every input with `cpLoss ≥ 0`, `classifyMove` returns
exactly the label of the spec's priority table (with the spec's
`improvement` convention), and in particular
`classifyMove 250 false _ _ _ = blunder`,
`classifyMove 120 false _ _ _ = mistake`, and
`classifyMove 10 true 50 140 white = brilliant`. -/
theorem claim_C1 :
    (∀ (cpLoss : Int) (isBestMove : Bool) (evalBefore evalAfter : Int) (isWhite : Bool),
        0 ≤ cpLoss →
        classifyMove cpLoss isBestMove evalBefore evalAfter isWhite =
          specClassifyMove cpLoss isBestMove evalBefore evalAfter isWhite) ∧
      classifyMove 250 false 0 0 false = Classification.blunder ∧
      classifyMove 120 false 0 0 false = Classification.mistake ∧
      classifyMove 10 true 50 140 true = Classification.brilliant := by
  refine ⟨?_, by decide, by decide, by decide⟩
  intro cpLoss b eb ea w _
  unfold classifyMove specClassifyMove BLUNDER_THRESHOLD MISTAKE_THRESHOLD INACCURACY_THRESHOLD
  cases b <;> cases w <;>
    simp only [Bool.false_eq_true, Bool.true_eq_false, if_false, if_true, ite_true,
      ite_false, not_false_iff, not_true, false_and, and_false, true_and, and_true,
      abs_lt, ge_iff_le, gt_iff_lt, not_lt, not_le] <;>
    split_ifs <;> first | rfl | omega

/-- Claim C1 witness: the universally quantified part applied at a
concrete input. -/
theorem claim_C1_witness :
    (0 : Int) ≤ 30 ∧
      classifyMove 30 false 0 0 false = specClassifyMove 30 false 0 0 false :=
  ⟨by decide, claim_C1.1 30 false 0 0 false (by decide)⟩


theorem mkMoveRecords_getElem? (g : List Char) (rs : List AnalysisResultItem) (i : Nat) :
    (mkMoveRecords g rs)[i]? =
      (rs[i]?).map fun c => buildMoveAnalysis g c rs[i + 1]? := by
  induction rs generalizing i with
  | nil => simp [mkMoveRecords]
  | cons c tail ih =>
    cases tail with
    | nil =>
      cases i with
      | zero => simp [mkMoveRecords]
      | succ j => cases j <;> simp [mkMoveRecords]
    | cons n rest =>
      cases i with
      | zero => simp [mkMoveRecords]
      | succ j => simpa [mkMoveRecords] using ih j

/-- Claim C2: for every analyzed game and ply index, the stored `cp_loss` is
the clamped evaluation difference in the direction given by the ply's parity
(odd ply = White move), with `eval_before` the current ply's normalized
evaluation and `eval_after` the next ply's (or `eval_before` for the final
ply), and `cp_loss` is never negative. -/
theorem claim_C2 (g : List Char) (rs : List AnalysisResultItem) (i : Nat)
    (h : i < rs.length) :
    ∃ r : MoveAnalysis, (mkMoveRecords g rs)[i]? = some r ∧
      r.ply = rs[i].ply ∧
      r.eval_before = normalizeEval rs[i].evaluation ∧
      (∀ n, rs[i + 1]? = some n → r.eval_after = normalizeEval n.evaluation) ∧
      (rs[i + 1]? = none → r.eval_after = r.eval_before) ∧
      (r.ply % 2 = 1 → r.cp_loss = max 0 (r.eval_before - r.eval_after)) ∧
      (¬r.ply % 2 = 1 → r.cp_loss = max 0 (r.eval_after - r.eval_before)) ∧
      0 ≤ r.cp_loss := by
  refine ⟨buildMoveAnalysis g rs[i] rs[i + 1]?, ?_, rfl, rfl, ?_, ?_, ?_, ?_, ?_⟩
  · rw [mkMoveRecords_getElem?, List.getElem?_eq_getElem h]
    rfl
  · intro n hn
    simp [buildMoveAnalysis, hn]
  · intro hn
    simp [buildMoveAnalysis, hn]
  · intro hp
    have hb : (rs[i].ply % 2 == 1) = true := beq_iff_eq.mpr hp
    simp [buildMoveAnalysis, hb]
  · intro hp
    have hb : (rs[i].ply % 2 == 1) = false := by
      simpa using hp
    simp [buildMoveAnalysis, hb]
  · simp [buildMoveAnalysis]

/-- Claim C2 witness: the theorem applied to a concrete two-ply game. -/
theorem claim_C2_witness :
    ∃ r : MoveAnalysis,
      (mkMoveRecords "g".toList
        [⟨1, 1, [], [], "e2e4".toList, ⟨ScoreType.cp, 30, "e2e4".toList, []⟩, true⟩,
         ⟨2, 1, [], [], "e7e5".toList, ⟨ScoreType.cp, 10, "e7e5".toList, []⟩, false⟩])[0]? =
          some r ∧
      r.ply =
        ([⟨1, 1, [], [], "e2e4".toList, ⟨ScoreType.cp, 30, "e2e4".toList, []⟩, true⟩,
          ⟨2, 1, [], [], "e7e5".toList, ⟨ScoreType.cp, 10, "e7e5".toList, []⟩, false⟩] :
            List AnalysisResultItem)[0].ply ∧
      r.eval_before =
        normalizeEval
          ([⟨1, 1, [], [], "e2e4".toList, ⟨ScoreType.cp, 30, "e2e4".toList, []⟩, true⟩,
            ⟨2, 1, [], [], "e7e5".toList, ⟨ScoreType.cp, 10, "e7e5".toList, []⟩, false⟩] :
              List AnalysisResultItem)[0].evaluation ∧
      (∀ n,
        ([⟨1, 1, [], [], "e2e4".toList, ⟨ScoreType.cp, 30, "e2e4".toList, []⟩, true⟩,
          ⟨2, 1, [], [], "e7e5".toList, ⟨ScoreType.cp, 10, "e7e5".toList, []⟩, false⟩] :
            List AnalysisResultItem)[0 + 1]? = some n →
          r.eval_after = normalizeEval n.evaluation) ∧
      (([⟨1, 1, [], [], "e2e4".toList, ⟨ScoreType.cp, 30, "e2e4".toList, []⟩, true⟩,
         ⟨2, 1, [], [], "e7e5".toList, ⟨ScoreType.cp, 10, "e7e5".toList, []⟩, false⟩] :
           List AnalysisResultItem)[0 + 1]? = none → r.eval_after = r.eval_before) ∧
      (r.ply % 2 = 1 → r.cp_loss = max 0 (r.eval_before - r.eval_after)) ∧
      (¬r.ply % 2 = 1 → r.cp_loss = max 0 (r.eval_after - r.eval_before)) ∧
      0 ≤ r.cp_loss :=
  claim_C2 "g".toList
    [⟨1, 1, [], [], "e2e4".toList, ⟨ScoreType.cp, 30, "e2e4".toList, []⟩, true⟩,
     ⟨2, 1, [], [], "e7e5".toList, ⟨ScoreType.cp, 10, "e7e5".toList, []⟩, false⟩] 0
    (by decide)

/-- Claim C10: the final ply's record has `eval_after = eval_before`, hence
`cp_loss = 0`, and its classification is `best` when the played UCI move
matches the engine best move (case-insensitively, trimmed) and `excellent`
otherwise; it is never any other label. -/
theorem claim_C10 (g : List Char) (rs : List AnalysisResultItem) (h : rs ≠ []) :
    ∃ r : MoveAnalysis, (mkMoveRecords g rs)[rs.length - 1]? = some r ∧
      r.eval_after = r.eval_before ∧
      r.cp_loss = 0 ∧
      r.classification =
        (if jsTrim (jsToLower (rs.getLast h).movePlayedUci) ==
            jsTrim (jsToLower (rs.getLast h).evaluation.bestMove) then
          Classification.best
        else Classification.excellent) ∧
      (r.classification = Classification.best ∨
        r.classification = Classification.excellent) := by
  have hlen : 0 < rs.length := List.length_pos.mpr h
  have hlt : rs.length - 1 < rs.length := by omega
  have hnone : rs[rs.length - 1 + 1]? = none := by
    apply List.getElem?_eq_none
    omega
  have hlast : rs.getLast h = rs[rs.length - 1] := by
    rw [List.getLast_eq_getElem]
  refine ⟨buildMoveAnalysis g rs[rs.length - 1] rs[rs.length - 1 + 1]?, ?_, ?_, ?_, ?_, ?_⟩
  · rw [mkMoveRecords_getElem?, List.getElem?_eq_getElem hlt]
    rfl
  · simp [buildMoveAnalysis, hnone]
  · simp [buildMoveAnalysis, hnone]
  · rw [hlast]
    simp only [buildMoveAnalysis, hnone]
    rw [show (max 0 (if (rs[rs.length - 1].ply % 2 == 1) = true then
        normalizeEval rs[rs.length - 1].evaluation - normalizeEval rs[rs.length - 1].evaluation
      else
        normalizeEval rs[rs.length - 1].evaluation - normalizeEval rs[rs.length - 1].evaluation))
        = 0 by simp]
    exact classifyMove_zero_same _ _ _
  · simp only [buildMoveAnalysis, hnone]
    rw [show (max 0 (if (rs[rs.length - 1].ply % 2 == 1) = true then
        normalizeEval rs[rs.length - 1].evaluation - normalizeEval rs[rs.length - 1].evaluation
      else
        normalizeEval rs[rs.length - 1].evaluation - normalizeEval rs[rs.length - 1].evaluation))
        = 0 by simp]
    rw [classifyMove_zero_same]
    split <;> simp

/-- Claim C10 witness: the theorem applied to a concrete one-ply game whose
played move differs from the engine best move. -/
theorem claim_C10_witness :
    ∃ r : MoveAnalysis,
      (mkMoveRecords "g".toList
        [⟨1, 1, [], [], "e2e4".toList, ⟨ScoreType.cp, 30, "d2d4".toList, []⟩, true⟩])[
          ([⟨1, 1, [], [], "e2e4".toList, ⟨ScoreType.cp, 30, "d2d4".toList, []⟩, true⟩] :
            List AnalysisResultItem).length - 1]? = some r ∧
      r.eval_after = r.eval_before ∧
      r.cp_loss = 0 ∧
      r.classification =
        (if jsTrim (jsToLower (([⟨1, 1, [], [], "e2e4".toList,
              ⟨ScoreType.cp, 30, "d2d4".toList, []⟩, true⟩] :
              List AnalysisResultItem).getLast (by decide)).movePlayedUci) ==
            jsTrim (jsToLower (([⟨1, 1, [], [], "e2e4".toList,
              ⟨ScoreType.cp, 30, "d2d4".toList, []⟩, true⟩] :
              List AnalysisResultItem).getLast (by decide)).evaluation.bestMove) then
          Classification.best
        else Classification.excellent) ∧
      (r.classification = Classification.best ∨
        r.classification = Classification.excellent) :=
  claim_C10 "g".toList
    [⟨1, 1, [], [], "e2e4".toList, ⟨ScoreType.cp, 30, "d2d4".toList, []⟩, true⟩] (by decide)

/-- Claim C3: a mate evaluation enters the loss and classification
arithmetic as exactly `value * 10000`, a centipawn evaluation unchanged, and
the per-move record depends on the evaluations only through this normalized
value (plus the reported best move) — there is no further mate-specific
branch downstream. -/
theorem claim_C3 :
    (∀ e : StockfishEval, e.type = ScoreType.mate → normalizeEval e = e.value * 10000) ∧
      (∀ e : StockfishEval, e.type = ScoreType.cp → normalizeEval e = e.value) ∧
      (∀ (g : List Char) (c : AnalysisResultItem) (e₁ e₂ : StockfishEval)
          (nxt : Option AnalysisResultItem) (f₁ f₂ : StockfishEval),
        normalizeEval e₁ = normalizeEval e₂ →
        e₁.bestMove = e₂.bestMove →
        normalizeEval f₁ = normalizeEval f₂ →
        buildMoveAnalysis g { c with evaluation := e₁ }
            (nxt.map fun x => { x with evaluation := f₁ }) =
          buildMoveAnalysis g { c with evaluation := e₂ }
            (nxt.map fun x => { x with evaluation := f₂ })) := by
  refine ⟨?_, ?_, ?_⟩
  · intro e he
    simp [normalizeEval, he]
  · intro e he
    simp [normalizeEval, he]
  · intro g c e₁ e₂ nxt f₁ f₂ hv hb hf
    cases nxt <;> simp [buildMoveAnalysis, hv, hb, hf]

/-- Claim C3 witness: the refinement part applied to a mate evaluation and a
centipawn evaluation of equal normalized value. -/
theorem claim_C3_witness :
    buildMoveAnalysis [] ⟨1, 1, [], [], "e2e4".toList,
        ⟨ScoreType.mate, 3, "e2e4".toList, []⟩, true⟩
      (Option.map (fun x => { x with evaluation := ⟨ScoreType.mate, 2, [], []⟩ }) (none : Option AnalysisResultItem)) =
    buildMoveAnalysis [] ⟨1, 1, [], [], "e2e4".toList,
        ⟨ScoreType.cp, 30000, "e2e4".toList, []⟩, true⟩
      (Option.map (fun x => { x with evaluation := ⟨ScoreType.cp, 20000, [], []⟩ }) (none : Option AnalysisResultItem)) :=
  claim_C3.2.2 [] ⟨1, 1, [], [], "e2e4".toList, ⟨ScoreType.mate, 3, "e2e4".toList, []⟩, true⟩
    ⟨ScoreType.mate, 3, "e2e4".toList, []⟩ ⟨ScoreType.cp, 30000, "e2e4".toList, []⟩
    none ⟨ScoreType.mate, 2, [], []⟩ ⟨ScoreType.cp, 20000, [], []⟩
    (by decide) (by decide) (by decide)

/-- Claim C9: when the PGN move text does not parse, `analyzeGame` fails with
the parser's error, produces no record list (not even a partial one), and
issues no evaluation request. -/
theorem claim_C9 (loadPgn : List Char → Except (List Char) ParsedGame)
    (evalPos : List Char → Nat → StockfishEval) (pgn : List Char) (userColor : Bool)
    (depth : Nat) (e : List Char) (h : loadPgn pgn = .error e) :
    analyzeGameModel loadPgn evalPos pgn userColor depth = (.error e, []) := by
  simp [analyzeGameModel, h]

/-- Claim C9 witness: a parser that rejects its input makes `analyzeGame`
fail with that error and issue no request. -/
theorem claim_C9_witness :
    analyzeGameModel (fun _ => .error "Invalid PGN".toList)
        (fun _ _ => ⟨ScoreType.cp, 0, [], []⟩) "1. e9 xx".toList true 12 =
      (.error "Invalid PGN".toList, []) :=
  claim_C9 (fun _ => .error "Invalid PGN".toList) (fun _ _ => ⟨ScoreType.cp, 0, [], []⟩)
    "1. e9 xx".toList true 12 "Invalid PGN".toList rfl

theorem splitChar_length_pos (sep : Char) (s : List Char) :
    0 < (splitChar sep s).length := by
  induction s with
  | nil => simp [splitChar]
  | cons c rest ih =>
    rw [splitChar]
    split
    · simp
    · split <;> simp

theorem splitChar_append_cons (sep : Char) (l rest : List Char) (h : sep ∉ l) :
    splitChar sep (l ++ sep :: rest) = l :: splitChar sep rest := by
  induction l with
  | nil => simp [splitChar]
  | cons c cs ih =>
    have hc : ¬c = sep := by
      intro h'
      exact h (by simp [h'])
    have ih' := ih (fun h' => h (List.mem_cons_of_mem c h'))
    rw [List.cons_append, splitChar]
    simp only [hc, if_false, ite_false]
    rw [ih']

theorem splitChar_joinln (ls : List (List Char)) (h : ∀ l ∈ ls, ('\n' : Char) ∉ l) :
    splitChar '\n' (joinln ls) = ls ++ [[]] := by
  induction ls with
  | nil => simp [joinln, splitChar]
  | cons l rest ih =>
    have h1 : ('\n' : Char) ∉ l := h l (List.mem_cons_self l rest)
    have h2 : ∀ x ∈ rest, ('\n' : Char) ∉ x := fun x hx => h x (List.mem_cons_of_mem l hx)
    have : joinln (l :: rest) = l ++ '\n' :: joinln rest := by
      simp [joinln]
    rw [this, splitChar_append_cons '\n' l (joinln rest) h1, ih h2]
    rfl

theorem bestmove_not_info (l : List Char) (h : beginsWith "bestmove".toList l = true) :
    beginsWith "info depth".toList l = false := by
  cases l with
  | nil => simp [beginsWith] at h
  | cons c rest =>
    rw [beginsWith, beq_iff_eq] at h
    rw [show List.take "bestmove".toList.length (c :: rest) = c :: List.take 7 rest from rfl]
      at h
    have hc : c = 'b' := by
      have := congrArg List.head? h
      simpa using this
    rw [beginsWith, beq_eq_false_iff_ne]
    intro hcontra
    rw [show List.take "info depth".toList.length (c :: rest) = c :: List.take 9 rest from rfl]
      at hcontra
    have hi : c = 'i' := by
      have := congrArg List.head? hcontra
      simpa using this
    rw [hc] at hi
    exact absurd hi (by decide)

theorem info_not_bestmove (l : List Char) (h : beginsWith "info depth".toList l = true) :
    beginsWith "bestmove".toList l = false := by
  by_contra hb
  have h' := bestmove_not_info l (by simpa using hb)
  rw [h'] at h
  exact Bool.false_ne_true h

theorem infoUpdate_resolved (fen : List Char) (depth : Nat) (st : ReqState)
    (line : List Char) : (infoUpdate fen depth st line).resolved = st.resolved := by
  unfold infoUpdate
  split
  · split
    · split <;> rfl
    · rfl
  · rfl

theorem infoUpdate_of_not_qualifying (fen : List Char) (depth : Nat) (st : ReqState)
    (line : List Char) (hq : qualifiesScore depth line = false) :
    infoUpdate fen depth st line = st := by
  unfold infoUpdate
  unfold qualifiesScore at hq
  split
  case isTrue hinfo =>
    split
    case isTrue hdepth =>
      split
      case h_1 kv hs =>
        rw [hinfo, decide_eq_true hdepth, hs] at hq
        simp at hq
      case h_2 => rfl
    case isFalse => rfl
  case isFalse => rfl

theorem infoUpdate_of_qualifying (fen : List Char) (depth : Nat) (st : ReqState)
    (line : List Char) (kv : ScoreType × Int)
    (hinfo : beginsWith "info depth".toList line = true)
    (hdepth : (currentDepthOf line : Int) ≥ (depth : Int) - 2)
    (hs : matchScoreTok line = some kv) :
    infoUpdate fen depth st line = { st with evaluation := some (mkInfoEval fen kv line) } := by
  unfold infoUpdate
  rw [if_pos hinfo, if_pos hdepth, hs]

theorem bmUpdate_of_not_bm (st : ReqState) (line : List Char)
    (hb : beginsWith "bestmove".toList line = false) : bmUpdate st line = st := by
  unfold bmUpdate
  rw [hb]
  simp

theorem bmUpdate_resolved_some (st : ReqState) (line : List Char) (r : StockfishEval)
    (h : st.resolved = some r) : (bmUpdate st line).resolved = some r := by
  unfold bmUpdate
  split
  · split <;> simp_all
  · exact h

theorem processLine_resolved_some (fen : List Char) (depth : Nat) (st : ReqState)
    (line : List Char) (r : StockfishEval) (h : st.resolved = some r) :
    (processLine fen depth st line).resolved = some r := by
  unfold processLine
  exact bmUpdate_resolved_some _ _ _ ((infoUpdate_resolved fen depth st line).trans h)

theorem processLine_not_update (fen : List Char) (depth : Nat) (st : ReqState)
    (line : List Char) (hb : beginsWith "bestmove".toList line = false)
    (hq : qualifiesScore depth line = false) : processLine fen depth st line = st := by
  unfold processLine
  rw [infoUpdate_of_not_qualifying fen depth st line hq, bmUpdate_of_not_bm st line hb]

theorem foldl_resolved_some (fen : List Char) (depth : Nat) (ls : List (List Char))
    (st : ReqState) (r : StockfishEval) (h : st.resolved = some r) :
    (ls.foldl (processLine fen depth) st).resolved = some r := by
  induction ls generalizing st with
  | nil => exact h
  | cons l rest ih =>
    exact ih _ (processLine_resolved_some fen depth st l r h)

theorem foldl_not_update (fen : List Char) (depth : Nat) (ls : List (List Char))
    (st : ReqState) (hb : ∀ l ∈ ls, beginsWith "bestmove".toList l = false)
    (hq : ∀ l ∈ ls, qualifiesScore depth l = false) :
    ls.foldl (processLine fen depth) st = st := by
  induction ls with
  | nil => rfl
  | cons l rest ih =>
    rw [List.foldl_cons,
      processLine_not_update fen depth st l (hb l (List.mem_cons_self l rest))
        (hq l (List.mem_cons_self l rest))]
    exact ih (fun x hx => hb x (List.mem_cons_of_mem l hx))
      (fun x hx => hq x (List.mem_cons_of_mem l hx))

theorem evalRequest_single (fen : List Char) (depth : Nat) (c : List Char) :
    evalRequest fen depth [c] =
      (splitChar '\n' c).foldl (processLine fen depth) initReqState := by
  unfold evalRequest runRequest
  simp [initReqState, runRequest]

theorem qualifiesScore_of_not_info (depth : Nat) (l : List Char)
    (h : beginsWith "info depth".toList l = false) : qualifiesScore depth l = false := by
  unfold qualifiesScore
  rw [h]
  simp

theorem qualifiesScore_true_iff (depth : Nat) (l : List Char) :
    qualifiesScore depth l = true ↔
      beginsWith "info depth".toList l = true ∧
        (currentDepthOf l : Int) ≥ (depth : Int) - 2 ∧ (matchScoreTok l).isSome = true := by
  unfold qualifiesScore
  simp [Bool.and_eq_true, decide_eq_true_iff, and_assoc]

theorem processLine_bestmove_none (fen : List Char) (depth : Nat) (bl : List Char)
    (hbl : beginsWith "bestmove".toList bl = true) :
    processLine fen depth initReqState bl =
      ⟨none, some ⟨ScoreType.cp, 0, jsTrim ((splitChar ' ' bl).getD 1 []),
        [jsTrim ((splitChar ' ' bl).getD 1 [])]⟩⟩ := by
  unfold processLine
  rw [infoUpdate_of_not_qualifying fen depth initReqState bl
    (qualifiesScore_of_not_info depth bl (bestmove_not_info bl hbl))]
  unfold bmUpdate
  simp only [hbl, ite_true, if_true]
  rfl

/-- Claim C4: a request whose engine output is a sequence of lines containing
a `bestmove` line with no preceding qualifying score line (and no earlier
`bestmove` line) resolves with exactly the neutral evaluation
`{type: cp, value: 0, bestMove: m, pv: [m]}`, `m` being the move token of the
`bestmove` line. -/
theorem claim_C4 (fen : List Char) (depth : Nat) (pre : List (List Char)) (bl : List Char)
    (post : List (List Char))
    (hnl : ∀ l ∈ pre ++ bl :: post, ('\n' : Char) ∉ l)
    (hpre_bm : ∀ l ∈ pre, beginsWith "bestmove".toList l = false)
    (hpre_q : ∀ l ∈ pre, qualifiesScore depth l = false)
    (hbl : beginsWith "bestmove".toList bl = true) :
    (evalRequest fen depth [joinln (pre ++ bl :: post)]).resolved =
      some ⟨ScoreType.cp, 0, jsTrim ((splitChar ' ' bl).getD 1 []),
        [jsTrim ((splitChar ' ' bl).getD 1 [])]⟩ := by
  rw [evalRequest_single, splitChar_joinln _ hnl, List.append_assoc, List.cons_append,
    List.foldl_append, foldl_not_update fen depth pre initReqState hpre_bm hpre_q,
    List.foldl_cons, processLine_bestmove_none fen depth bl hbl]
  exact foldl_resolved_some fen depth _ _ _ rfl

/-- Claim C4 witness: the stub-engine round trip — the engine emits only
`bestmove e2e4`, and the evaluator resolves with the neutral evaluation. -/
theorem claim_C4_witness :
    (evalRequest "rnbqkbnr/pppppppp/8/8/8/8/PPPPPPPP/RNBQKBNR w KQkq - 0 1".toList 10
        [joinln ["bestmove e2e4".toList]]).resolved =
      some ⟨ScoreType.cp, 0,
        jsTrim ((splitChar ' ' "bestmove e2e4".toList).getD 1 []),
        [jsTrim ((splitChar ' ' "bestmove e2e4".toList).getD 1 [])]⟩ :=
  claim_C4 "rnbqkbnr/pppppppp/8/8/8/8/PPPPPPPP/RNBQKBNR w KQkq - 0 1".toList 10 []
    "bestmove e2e4".toList [] (by decide) (by simp) (by simp) (by decide)

/-- Claim C5 counterexample: the engine reports a qualifying score line that
carries no `pv` token, then `bestmove e2e4`; the request resolves, yet the
returned principal variation is empty — its length is 0, not ≥ 1. -/
theorem claim_C5_cex :
    ((evalRequest "rnbqkbnr/pppppppp/8/8/8/8/PPPPPPPP/RNBQKBNR w KQkq - 0 1".toList 10
        ["info depth 12 score cp 50\nbestmove e2e4\n".toList]).resolved.map
      StockfishEval.pv) = some [] := by
  decide

theorem mkInfoEval_pv_length (fen : List Char) (kv : ScoreType × Int) (line : List Char)
    (cap : List Char) (h : matchPv line = some cap) :
    1 ≤ (mkInfoEval fen kv line).pv.length := by
  unfold mkInfoEval
  rw [h]
  exact splitChar_length_pos ' ' cap

theorem foldl_pre_pv (fen : List Char) (depth : Nat) (pre : List (List Char))
    (st : ReqState)
    (hbm : ∀ l ∈ pre, beginsWith "bestmove".toList l = false)
    (hpv : ∀ l ∈ pre, qualifiesScore depth l = true → (matchPv l).isSome = true)
    (hres : st.resolved = none)
    (hev : st.evaluation = none ∨ ∃ e, st.evaluation = some e ∧ 1 ≤ e.pv.length) :
    (pre.foldl (processLine fen depth) st).resolved = none ∧
      ((pre.foldl (processLine fen depth) st).evaluation = none ∨
        ∃ e, (pre.foldl (processLine fen depth) st).evaluation = some e ∧
          1 ≤ e.pv.length) := by
  induction pre generalizing st with
  | nil => exact ⟨hres, hev⟩
  | cons l rest ih =>
    rw [List.foldl_cons]
    have hbml : beginsWith "bestmove".toList l = false := hbm l (List.mem_cons_self l rest)
    have hstep : (processLine fen depth st l).resolved = none ∧
        ((processLine fen depth st l).evaluation = none ∨
          ∃ e, (processLine fen depth st l).evaluation = some e ∧ 1 ≤ e.pv.length) := by
      unfold processLine
      rw [bmUpdate_of_not_bm _ _ hbml]
      cases hq : qualifiesScore depth l with
      | false =>
        rw [infoUpdate_of_not_qualifying fen depth st l hq]
        exact ⟨hres, hev⟩
      | true =>
        obtain ⟨hinfo, hdepth, hsome⟩ := (qualifiesScore_true_iff depth l).mp hq
        obtain ⟨kv, hkv⟩ := Option.isSome_iff_exists.mp hsome
        rw [infoUpdate_of_qualifying fen depth st l kv hinfo hdepth hkv]
        refine ⟨hres, Or.inr ⟨mkInfoEval fen kv l, rfl, ?_⟩⟩
        obtain ⟨cap, hcap⟩ :=
          Option.isSome_iff_exists.mp (hpv l (List.mem_cons_self l rest) hq)
        exact mkInfoEval_pv_length fen kv l cap hcap
    exact ih _ (fun x hx => hbm x (List.mem_cons_of_mem l hx))
      (fun x hx => hpv x (List.mem_cons_of_mem l hx)) hstep.1 hstep.2

/-- Claim C5, amended: once a `bestmove` line is observed the resolved
evaluation's principal variation has length ≥ 1 provided every qualifying
score line seen before it carried a `pv` token (in particular in the
no-score fallback case); a qualifying score line without a `pv` token makes
the running best evaluation's principal variation empty, and it is returned
as such. -/
theorem claim_C5 (fen : List Char) (depth : Nat) (pre : List (List Char)) (bl : List Char)
    (post : List (List Char))
    (hnl : ∀ l ∈ pre ++ bl :: post, ('\n' : Char) ∉ l)
    (hpre_bm : ∀ l ∈ pre, beginsWith "bestmove".toList l = false)
    (hpre_pv : ∀ l ∈ pre, qualifiesScore depth l = true → (matchPv l).isSome = true)
    (hbl : beginsWith "bestmove".toList bl = true) :
    ∃ e, (evalRequest fen depth [joinln (pre ++ bl :: post)]).resolved = some e ∧
      1 ≤ e.pv.length := by
  rw [evalRequest_single, splitChar_joinln _ hnl, List.append_assoc, List.cons_append,
    List.foldl_append]
  obtain ⟨hres, hev⟩ := foldl_pre_pv fen depth pre initReqState hpre_bm hpre_pv rfl
    (Or.inl rfl)
  set st' := pre.foldl (processLine fen depth) initReqState with hst'
  rw [List.foldl_cons]
  have hinfo : infoUpdate fen depth st' bl = st' :=
    infoUpdate_of_not_qualifying fen depth st' bl
      (qualifiesScore_of_not_info depth bl (bestmove_not_info bl hbl))
  rcases hev with hnone | ⟨e, he, hlen⟩
  · refine ⟨⟨ScoreType.cp, 0, jsTrim ((splitChar ' ' bl).getD 1 []),
      [jsTrim ((splitChar ' ' bl).getD 1 [])]⟩, ?_, by simp⟩
    have hstep : processLine fen depth st' bl =
        ⟨st'.evaluation, some ⟨ScoreType.cp, 0, jsTrim ((splitChar ' ' bl).getD 1 []),
          [jsTrim ((splitChar ' ' bl).getD 1 [])]⟩⟩ := by
      unfold processLine
      rw [hinfo]
      unfold bmUpdate
      simp only [hbl, ite_true, if_true]
      rw [hnone, hres]
    rw [hstep]
    exact foldl_resolved_some fen depth _ _ _ rfl
  · refine ⟨{ e with bestMove := jsTrim ((splitChar ' ' bl).getD 1 []) }, ?_, by simpa⟩
    have hstep : processLine fen depth st' bl =
        ⟨some { e with bestMove := jsTrim ((splitChar ' ' bl).getD 1 []) },
          some { e with bestMove := jsTrim ((splitChar ' ' bl).getD 1 []) }⟩ := by
      unfold processLine
      rw [hinfo]
      unfold bmUpdate
      simp only [hbl, ite_true, if_true]
      rw [he, hres]
    rw [hstep]
    exact foldl_resolved_some fen depth _ _ _ rfl

/-- Claim C5 witness: a qualifying score line carrying a `pv` token followed
by a `bestmove` line resolves with a nonempty principal variation. -/
theorem claim_C5_witness :
    ∃ e, (evalRequest "rnbqkbnr/pppppppp/8/8/8/8/PPPPPPPP/RNBQKBNR w KQkq - 0 1".toList 10
        [joinln ["info depth 12 score cp 50 pv e2e4 e7e5".toList,
          "bestmove e2e4".toList]]).resolved = some e ∧
      1 ≤ e.pv.length :=
  claim_C5 "rnbqkbnr/pppppppp/8/8/8/8/PPPPPPPP/RNBQKBNR w KQkq - 0 1".toList 10
    ["info depth 12 score cp 50 pv e2e4 e7e5".toList] "bestmove e2e4".toList []
    (by decide) (by decide) (by decide) (by decide)

/-- Claim C6 counterexample: a chunk holding a qualifying score line with no
terminating newline anywhere in the engine output still updates the running
best evaluation — the buffer's trailing unterminated fragment is processed
like a complete line. -/
theorem claim_C6_cex :
    (evalRequest "rnbqkbnr/pppppppp/8/8/8/8/PPPPPPPP/RNBQKBNR w KQkq - 0 1".toList 10
        ["info depth 12 score cp 50".toList]).evaluation =
      some ⟨ScoreType.cp, 50, [], []⟩ ∧
      "info depth 12 score cp 50".toList.contains '\n' = false := by
  decide

theorem mkInfoEval_type_value (fen : List Char) (kv : ScoreType × Int) (line : List Char) :
    (mkInfoEval fen kv line).type = kv.1 ∧
      (mkInfoEval fen kv line).value = (if isBlackTurn fen then -kv.2 else kv.2) := by
  unfold mkInfoEval
  split <;> split <;> exact ⟨rfl, rfl⟩

/-- Claim C6, amended: the running best evaluation is updated exactly by the
buffer segments — newline-terminated lines or the trailing unterminated
fragment — that start with `info depth`, report depth ≥ targetDepth − 2 and
carry a score token (apart from the `bestmove` resolution step); a segment
reporting a depth below targetDepth − 2 never changes it; the score is
normalized to White's perspective by negating it exactly when the FEN's
side-to-move field is `b`. -/
theorem claim_C6 :
    (∀ (fen : List Char) (depth : Nat) (st : ReqState) (line : List Char),
        beginsWith "bestmove".toList line = false → qualifiesScore depth line = false →
        processLine fen depth st line = st) ∧
      (∀ (fen : List Char) (depth : Nat) (st : ReqState) (line : List Char),
        beginsWith "info depth".toList line = true →
        (currentDepthOf line : Int) < (depth : Int) - 2 →
        processLine fen depth st line = st) ∧
      (∀ (fen : List Char) (depth : Nat) (st : ReqState) (line : List Char)
          (kv : ScoreType × Int),
        beginsWith "info depth".toList line = true →
        (currentDepthOf line : Int) ≥ (depth : Int) - 2 →
        matchScoreTok line = some kv →
        (processLine fen depth st line).evaluation = some (mkInfoEval fen kv line) ∧
          (mkInfoEval fen kv line).type = kv.1 ∧
          (mkInfoEval fen kv line).value = (if isBlackTurn fen then -kv.2 else kv.2)) := by
  refine ⟨?_, ?_, ?_⟩
  · exact fun fen depth st line hb hq => processLine_not_update fen depth st line hb hq
  · intro fen depth st line hinfo hd
    have hb : beginsWith "bestmove".toList line = false := info_not_bestmove line hinfo
    unfold processLine
    rw [bmUpdate_of_not_bm _ _ hb]
    unfold infoUpdate
    rw [if_pos hinfo, if_neg (by omega)]
  · intro fen depth st line kv hinfo hd hs
    have hb : beginsWith "bestmove".toList line = false := info_not_bestmove line hinfo
    refine ⟨?_, mkInfoEval_type_value fen kv line⟩
    unfold processLine
    rw [bmUpdate_of_not_bm _ _ hb, infoUpdate_of_qualifying fen depth st line kv hinfo hd hs]

/-- Claim C6 witness: a segment reporting depth 5 against target depth 10
leaves the state unchanged; a qualifying depth-12 segment sets the running
best evaluation with the sign flipped for a Black-to-move FEN. -/
theorem claim_C6_witness :
    processLine "x b - - 0 1".toList 10 initReqState "info depth 5 score cp 50".toList =
        initReqState ∧
      (processLine "x b - - 0 1".toList 10 initReqState
          "info depth 12 score cp 50".toList).evaluation =
        some (mkInfoEval "x b - - 0 1".toList (ScoreType.cp, 50)
          "info depth 12 score cp 50".toList) :=
  ⟨claim_C6.2.1 "x b - - 0 1".toList 10 initReqState "info depth 5 score cp 50".toList
      (by decide) (by decide),
    (claim_C6.2.2 "x b - - 0 1".toList 10 initReqState "info depth 12 score cp 50".toList
      (ScoreType.cp, 50) (by decide) (by decide) (by decide)).1⟩

theorem firstAvail_all_busy (pool : List EngineInstance)
    (h : ∀ inst ∈ pool, inst.busy = true) : firstAvail pool = none := by
  induction pool with
  | nil => rfl
  | cons a tail ih =>
    rw [firstAvail, if_pos (h a (List.mem_cons_self a tail))]
    rw [ih (fun x hx => h x (List.mem_cons_of_mem a hx))]
    rfl

theorem firstAvail_least (pool : List EngineInstance) (j : Nat) (inst : EngineInstance)
    (hj : pool[j]? = some inst) (hb : inst.busy = false)
    (hmin : ∀ (k : Nat) (instk : EngineInstance), k < j → pool[k]? = some instk →
      instk.busy = true) : firstAvail pool = some j := by
  induction pool generalizing j with
  | nil => simp at hj
  | cons a tail ih =>
    cases j with
    | zero =>
      simp only [List.getElem?_cons_zero, Option.some.injEq] at hj
      rw [firstAvail, hj, if_neg (by simp [hb])]
    | succ j' =>
      have ha : a.busy = true := hmin 0 a (Nat.succ_pos j') (by simp)
      rw [firstAvail, if_pos ha]
      rw [ih j' (by simpa using hj) (fun k instk hk hget =>
        hmin (k + 1) instk (by omega) (by simpa using hget))]
      rfl

/-- Claim C7: on a nonempty pool, `evaluate` dispatches immediately to the
first non-busy instance in pool order when one exists; when every instance is
busy it appends the request to instance 0's queue, regardless of the other
instances' queue depths. -/
theorem claim_C7 (pool : List EngineInstance) (r : Req) (hne : pool ≠ []) :
    ((∀ inst ∈ pool, inst.busy = true) →
        ∃ i0, pool[0]? = some i0 ∧
          evaluateStep pool r =
            (pool.set 0 { i0 with queue := i0.queue ++ [r] }, DispatchResult.queued 0)) ∧
      (∀ (j : Nat) (inst : EngineInstance), pool[j]? = some inst → inst.busy = false →
        (∀ (k : Nat) (instk : EngineInstance), k < j → pool[k]? = some instk →
          instk.busy = true) →
        evaluateStep pool r =
          (pool.set j { inst with busy := true }, DispatchResult.dispatched j)) := by
  constructor
  · intro h
    obtain ⟨i0, hi0⟩ : ∃ i0, pool[0]? = some i0 := by
      cases pool with
      | nil => exact absurd rfl hne
      | cons a tail => exact ⟨a, by simp⟩
    refine ⟨i0, hi0, ?_⟩
    have hmem : i0 ∈ pool := by
      have := List.getElem?_eq_some.mp hi0
      obtain ⟨hlt, hval⟩ := this
      exact hval ▸ List.getElem_mem hlt
    have hbusy : i0.busy = true := h i0 hmem
    unfold evaluateStep
    rw [firstAvail_all_busy pool h]
    simp only [Option.getD_none]
    rw [show pool.get? 0 = some i0 from by rw [List.get?_eq_getElem?]; exact hi0]
    simp [hbusy]
  · intro j inst hj hb hmin
    unfold evaluateStep
    rw [firstAvail_least pool j inst hj hb hmin]
    simp only [Option.getD_some]
    rw [show pool.get? j = some inst from by rw [List.get?_eq_getElem?]; exact hj]
    simp [hb]

/-- Claim C7 witness: with instance 0 busy and instance 1 free, the request is
dispatched to instance 1. -/
theorem claim_C7_witness :
    evaluateStep [⟨true, []⟩, ⟨false, []⟩] ⟨"f".toList, 10⟩ =
      ([⟨true, []⟩, ⟨true, []⟩], DispatchResult.dispatched 1) :=
  (claim_C7 [⟨true, []⟩, ⟨false, []⟩] ⟨"f".toList, 10⟩ (by decide)).2 1 ⟨false, []⟩
    (by decide) rfl
    (by
      intro k instk hk hget
      interval_cases k
      simp only [List.getElem?_cons_zero, Option.some.injEq] at hget
      rw [← hget])

theorem instInv_step (a b : InstState) (ha : InstInv a) (hab : IStep a b) : InstInv b := by
  obtain ⟨hlen, hbusy, hqueue, horder⟩ := ha
  cases hab with
  | submit r =>
    unfold submitReq
    by_cases hb : a.busy = true
    · rw [if_pos hb]
      refine ⟨hlen, by simpa using hbusy, by intro h2; rw [hb] at h2; simp at h2, ?_⟩
      simp only
      rw [← horder]
      simp
    · have hb' : a.busy = false := by simpa using hb
      have hrun : a.running = [] := by
        by_contra hc
        rw [hbusy.mpr hc] at hb'
        simp at hb'
      have hq : a.queue = [] := hqueue hb'
      rw [if_neg hb]
      refine ⟨by simp [hrun], by simp [hrun], by simp, ?_⟩
      simp only
      rw [hrun, hq] at horder ⊢
      simp only [List.append_nil] at horder
      simp [horder]
  | complete r s2 hmem =>
    have hrun : a.running = [r] := by
      cases hr2 : a.running with
      | nil => rw [hr2] at hmem; simp at hmem
      | cons x t =>
        rw [hr2] at hmem hlen
        simp at hlen
        have ht : t = [] := List.eq_nil_of_length_eq_zero (by simpa using hlen)
        rw [ht] at hmem ⊢
        simp at hmem
        rw [hmem]
    have herase : a.running.erase r = [] := by rw [hrun]; simp
    unfold completeReq
    simp only [herase]
    cases hq : a.queue with
    | nil =>
      refine ⟨by simp, by simp, by simp, ?_⟩
      simp only
      rw [← horder, hrun, hq]
      simp
    | cons q t =>
      refine ⟨by simp, by simp, by simp, ?_⟩
      simp only
      rw [← horder, hrun, hq]
      simp

theorem instInv_of_reachable (s : InstState) (h : ReachableInst s) : InstInv s := by
  induction h with
  | init =>
    exact ⟨by simp [initInst], by simp [initInst], by simp [initInst], by simp [initInst]⟩
  | step hr hstep ih => exact instInv_step _ _ ih hstep

/-- Claim C8: every reachable instance state has at most one request in
flight; its completed requests always form an initial segment of its
submission order (strict FIFO); a free instance holds no queued request; and
completing the in-flight request immediately dispatches the head of the
queue (or frees the instance when the queue is empty).  Submitting to a busy
instance appends to the tail of its queue. -/
theorem claim_C8 :
    (∀ s : InstState, ReachableInst s →
        s.running.length ≤ 1 ∧
          (∃ rest, s.completed ++ rest = s.submitted) ∧
          (s.busy = false → s.queue = [])) ∧
      (∀ s : InstState, ReachableInst s → ∀ r ∈ s.running,
        ∀ (q : Nat) (t : List Nat), s.queue = q :: t →
          (completeReq r s).busy = true ∧ (completeReq r s).running = [q] ∧
            (completeReq r s).queue = t) ∧
      (∀ s : InstState, ReachableInst s → ∀ r ∈ s.running, s.queue = [] →
        (completeReq r s).busy = false ∧ (completeReq r s).running = []) ∧
      (∀ (s : InstState) (r : Nat), s.busy = true →
        (submitReq r s).queue = s.queue ++ [r] ∧ (submitReq r s).running = s.running) := by
  have hrun_single : ∀ s : InstState, ReachableInst s → ∀ r ∈ s.running,
      s.running = [r] := by
    intro s hs r hmem
    obtain ⟨hlen, -, -, -⟩ := instInv_of_reachable s hs
    cases hr2 : s.running with
    | nil => rw [hr2] at hmem; simp at hmem
    | cons x t =>
      rw [hr2] at hmem hlen
      simp at hlen
      have ht : t = [] := List.eq_nil_of_length_eq_zero (by simpa using hlen)
      rw [ht] at hmem ⊢
      simp at hmem
      rw [hmem]
  refine ⟨?_, ?_, ?_, ?_⟩
  · intro s hs
    obtain ⟨hlen, hbusy, hqueue, horder⟩ := instInv_of_reachable s hs
    exact ⟨hlen, ⟨s.running ++ s.queue, by rw [← horder]; simp⟩, hqueue⟩
  · intro s hs r hmem q t hq
    have hrun := hrun_single s hs r hmem
    have herase : s.running.erase r = [] := by rw [hrun]; simp
    unfold completeReq
    simp only [herase, hq]
    exact ⟨trivial, by simp, trivial⟩
  · intro s hs r hmem hq
    have hrun := hrun_single s hs r hmem
    have herase : s.running.erase r = [] := by rw [hrun]; simp
    unfold completeReq
    simp only [herase, hq]
    exact ⟨trivial, trivial⟩
  · intro s r hb
    unfold submitReq
    rw [if_pos hb]
    exact ⟨rfl, rfl⟩

/-- Claim C8 witness: after submitting request 0 to a fresh instance and
request 1 while it is busy, completing request 0 immediately dispatches
request 1 from the head of the queue. -/
theorem claim_C8_witness :
    (completeReq 0 (submitReq 1 (submitReq 0 initInst))).busy = true ∧
      (completeReq 0 (submitReq 1 (submitReq 0 initInst))).running = [1] ∧
      (completeReq 0 (submitReq 1 (submitReq 0 initInst))).queue = [] :=
  claim_C8.2.1 (submitReq 1 (submitReq 0 initInst))
    (ReachableInst.step
      (ReachableInst.step ReachableInst.init (IStep.submit 0 initInst))
      (IStep.submit 1 (submitReq 0 initInst)))
    0 (by decide) 1 [] (by decide)
